import Mathlib

/-!
Verification of the wrong-answer statistics tool (`app.py`).

The embedding models the two pure core functions of the source,
`robust_parse_wrong_list` and `compute_module_rates`, together with the
column-validation step of the upload handler.  Cell text is modelled as
`List Char`; a missing (null / NaN) cell is `none`.  The Python string
primitives used by the source (`strip`, `lower`, `replace`, `split`,
`isdigit`, `int`) are modelled character by character on the repertoire the
tool handles (ASCII digits, whitespace, letters, and the full-width
separator characters).  Arithmetic on rates is exact rational arithmetic;
Python's `round(x, 1)` is modelled as round-half-to-even at one decimal.
-/

namespace SatStats

/-! ## Python string primitives on `List Char` -/

/-- Python `str.strip()`: remove leading and trailing whitespace. -/
def pyStrip (s : List Char) : List Char :=
  ((s.dropWhile Char.isWhitespace).reverse.dropWhile Char.isWhitespace).reverse

/-- Python `str.lower()` (ASCII case mapping, the repertoire used here). -/
def pyLower (s : List Char) : List Char :=
  s.map Char.toLower

/-- Python `str.replace(a, b)` for single-character `a` and `b`. -/
def pyReplaceChar (a b : Char) (s : List Char) : List Char :=
  s.map (fun c => if c = a then b else c)

/-- Python `str.split(",")`: split on every comma, keeping empty pieces;
the empty string splits to `[""]`. -/
def pySplitComma : List Char → List (List Char)
  | [] => [[]]
  | c :: cs =>
    if c = ',' then [] :: pySplitComma cs
    else
      match pySplitComma cs with
      | [] => [[c]]
      | t :: ts => (c :: t) :: ts

/-- Python `str.isdigit()` on the ASCII-digit repertoire: nonempty and all
characters are decimal digits. -/
def pyIsDigit (s : List Char) : Bool :=
  !s.isEmpty && s.all Char.isDigit

/-- Python `int(s)` on a string of decimal digits. -/
def pyInt (s : List Char) : Nat :=
  s.foldl (fun n c => 10 * n + (c.toNat - 48)) 0

/-! ## The cell parser (`robust_parse_wrong_list`, app.py lines 37-48)

`none` is Python `None` (a not-attempted cell); `some l` is a list of
wrong-question numbers (an attempted cell). -/

/-- Embedding of `robust_parse_wrong_list`: a null or blank cell parses to
`none`; a (trimmed, case-insensitive) `x` parses to the empty list; any
other cell has its full-width commas and ASCII semicolons normalised to
commas, is split on commas, and every trimmed token that is a digit string
is parsed to a number, all other tokens being dropped. -/
def robust_parse_wrong_list (cell : Option (List Char)) : Option (List Nat) :=
  match cell with
  | none => none
  | some c =>
    if pyStrip c = [] then none
    else
      let s := pyStrip c
      if pyLower s = ['x'] then some []
      else
        let s2 := pyReplaceChar ';' ',' (pyReplaceChar '，' ',' s)
        some (((pySplitComma s2).filter (fun x => pyIsDigit (pyStrip x))).map
          (fun x => pyInt (pyStrip x)))

/-! ## Rounding

Python's `round(x, 1)` rounds to one decimal place with ties going to the
nearest even multiple of one tenth. -/

/-- Round a rational to the nearest integer, ties to even. -/
def roundHalfEven (x : ℚ) : ℤ :=
  let f := ⌊x⌋
  let r := x - (f : ℚ)
  if r < 1/2 then f
  else if 1/2 < r then f + 1
  else if f % 2 = 0 then f else f + 1

/-- Python `round(x, 1)`: round to one decimal place, ties to even. -/
def pyRound1 (x : ℚ) : ℚ :=
  (roundHalfEven (x * 10) : ℚ) / 10

/-! ## The aggregator (`compute_module_rates`, app.py lines 50-58) -/

/-- One output row: question number, wrong-rate in percent, wrong count. -/
structure StatRow where
  question : Nat
  rate : ℚ
  wrong : Nat
deriving Repr, DecidableEq

/-- Embedding of `compute_module_rates`: the attempted count is the number
of non-null outcomes; for each question `q` in `1..total_questions` the
wrong count is the number of outcomes that are lists containing `q`, and
the rate is `round(wrong / attempted * 100, 1)` when anyone attempted and
`0.0` otherwise. -/
def compute_module_rates (series : List (Option (List Nat)))
    (total_questions : Nat) : List StatRow :=
  let attempted := series.countP (fun v => v.isSome)
  (List.range total_questions).map (fun i =>
    let q := i + 1
    let wrong := series.countP (fun v =>
      match v with
      | some l => decide (q ∈ l)
      | none => false)
    let rate := if attempted > 0
      then pyRound1 ((wrong : ℚ) / (attempted : ℚ) * 100)
      else 0
    { question := q, rate := rate, wrong := wrong })

/-! ## Spec-side counting functions

Stated independently of `compute_module_rates`, following the wording of
the aggregator contract: attempted-count is the number of outcomes that are
not `NotAttempted`, and wrong-count(q) is the number of outcomes
`AttemptedWrong(S)` with `q ∈ S`. -/

/-- Number of outcomes that are not `NotAttempted`. -/
def attemptedCount (series : List (Option (List Nat))) : Nat :=
  (series.filter (fun v => v ≠ none)).length

/-- Number of outcomes `AttemptedWrong(S)` with `q ∈ S`. -/
def wrongCount (series : List (Option (List Nat))) (q : Nat) : Nat :=
  (series.filter (fun v => ∃ l, v = some l ∧ q ∈ l)).length

/-! ## The upload handler's column validation (app.py lines 77-93) -/

/-- The module a statistics row is reported under (the `m1-`/`m2-` label
prefixed to its question number in the combined report). -/
inductive ModuleTag where
  | m1
  | m2
deriving Repr, DecidableEq

/-- The uploaded table: its column names and, for each student, the raw
Module1 and Module2 cells (`none` is an empty / NaN cell). -/
structure InputTable where
  columns : List (List Char)
  module1 : List (Option (List Char))
  module2 : List (Option (List Char))

/-- The required column names: 이름, Module1, Module2. -/
def required_cols : List (List Char) :=
  [['이', '름'],
   ['M', 'o', 'd', 'u', 'l', 'e', '1'],
   ['M', 'o', 'd', 'u', 'l', 'e', '2']]

/-- Outcome of one upload: either the run stops at the column check with an
error message naming a set of columns, or it produces the combined report
of both modules' statistics rows, Module1 rows first. -/
inductive UploadOutcome where
  | missingColumnsError (named : List (List Char))
  | report (combined : List (ModuleTag × StatRow))
deriving Repr, DecidableEq

/-- Embedding of the upload handler (app.py lines 77-93): column names are
trimmed; if the required columns are not a subset of them the run stops
with an error naming the required columns and produces nothing else;
otherwise each module column is parsed cell by cell and the two modules'
statistics are concatenated, Module1 rows first, each labelled with its
module. -/
def process_upload (t : InputTable) (m1_total m2_total : Nat) : UploadOutcome :=
  let cols := t.columns.map pyStrip
  if ¬ (required_cols.all (fun c => cols.contains c)) then
    .missingColumnsError required_cols
  else
    let m1_parsed := t.module1.map robust_parse_wrong_list
    let m2_parsed := t.module2.map robust_parse_wrong_list
    .report ((compute_module_rates m1_parsed m1_total).map (fun r => (ModuleTag.m1, r)) ++
      (compute_module_rates m2_parsed m2_total).map (fun r => (ModuleTag.m2, r)))

/-! ## Helper lemmas -/

theorem attemptedCount_eq_countP (series : List (Option (List Nat))) :
    attemptedCount series = series.countP (fun v => v.isSome) := by
  rw [attemptedCount, ← List.countP_eq_length_filter]
  apply List.countP_congr
  intro v _
  cases v <;> simp

theorem wrongCount_eq_countP (series : List (Option (List Nat))) (q : Nat) :
    wrongCount series q = series.countP (fun v =>
      match v with
      | some l => decide (q ∈ l)
      | none => false) := by
  rw [wrongCount, ← List.countP_eq_length_filter]
  apply List.countP_congr
  intro v _
  cases v <;> simp

theorem roundHalfEven_nonneg {x : ℚ} (hx : 0 ≤ x) : 0 ≤ roundHalfEven x := by
  have hf : (0 : ℤ) ≤ ⌊x⌋ := Int.le_floor.mpr (by exact_mod_cast hx)
  unfold roundHalfEven
  dsimp only
  split
  · exact hf
  · split
    · omega
    · split <;> omega

theorem roundHalfEven_le {x : ℚ} {B : ℤ} (hx : x ≤ B) : roundHalfEven x ≤ B := by
  have hfB : ⌊x⌋ ≤ B := by
    have := Int.floor_le_floor hx
    simpa using this
  unfold roundHalfEven
  dsimp only
  split
  · exact hfB
  · have hlt : ⌊x⌋ < B := by
      rcases lt_or_eq_of_le hfB with h | h
      · exact h
      · exfalso
        have hx2 : x - (⌊x⌋ : ℚ) < 1/2 := by
          have : x - (⌊x⌋ : ℚ) ≤ 0 := by
            rw [h]
            exact sub_nonpos.mpr hx
          linarith
        exact absurd hx2 (by assumption)
    split
    · omega
    · split <;> omega

theorem pyRound1_nonneg {x : ℚ} (hx : 0 ≤ x) : 0 ≤ pyRound1 x := by
  unfold pyRound1
  have h := roundHalfEven_nonneg (x := x * 10) (by linarith)
  positivity

theorem pyRound1_le_100 {x : ℚ} (hx : x ≤ 100) : pyRound1 x ≤ 100 := by
  unfold pyRound1
  have h : roundHalfEven (x * 10) ≤ (1000 : ℤ) := roundHalfEven_le (by push_cast; linarith)
  rw [div_le_iff₀ (by norm_num)]
  calc ((roundHalfEven (x * 10) : ℚ)) ≤ (1000 : ℚ) := by exact_mod_cast h
    _ = 100 * 10 := by norm_num

/-! ## Claims -/

/-- Claim C1: for every sequence of parsed outcomes and every positive total
question count N, the aggregator returns one row per question q in 1..N
where attempted-count is the number of outcomes that are not NotAttempted,
wrong-count(q) is the number of outcomes AttemptedWrong(S) with q in S, and
rate(q) is 0.0 if attempted-count is 0 and round(100 × wrong-count(q) /
attempted-count, 1) otherwise. -/
theorem aggregator_rows_correct (series : List (Option (List Nat))) (N : Nat)
    (_hN : 0 < N) :
    (compute_module_rates series N).length = N ∧
    ∀ i : Nat, i < N →
      (compute_module_rates series N)[i]? =
        some { question := i + 1,
               rate := if attemptedCount series = 0 then 0
                 else pyRound1 (100 * (wrongCount series (i + 1) : ℚ) /
                   (attemptedCount series : ℚ)),
               wrong := wrongCount series (i + 1) } := by
  constructor
  · simp [compute_module_rates]
  · intro i hi
    rw [attemptedCount_eq_countP, wrongCount_eq_countP]
    simp only [compute_module_rates, List.getElem?_map, List.getElem?_range hi,
      Option.map_some', Option.some.injEq, StatRow.mk.injEq]
    refine ⟨trivial, ?_, trivial⟩
    rcases Nat.eq_zero_or_pos (series.countP (fun v => v.isSome)) with h0 | hpos
    · rw [if_neg (by omega), if_pos h0]
    · rw [if_pos hpos, if_neg (by omega)]
      congr 1
      ring

/-- Witness for C1: the theorem instantiated at the spec's aggregator test
vector, outcomes [AttemptedWrong {1,3}, AttemptedWrong ∅, NotAttempted]
with N = 3. -/
theorem aggregator_rows_correct_witness :
    (0 < 3) ∧
    ((compute_module_rates [some [1, 3], some [], none] 3).length = 3 ∧
    ∀ i : Nat, i < 3 →
      (compute_module_rates [some [1, 3], some [], none] 3)[i]? =
        some { question := i + 1,
               rate := if attemptedCount [some [1, 3], some [], none] = 0 then 0
                 else pyRound1 (100 * (wrongCount [some [1, 3], some [], none] (i + 1) : ℚ) /
                   (attemptedCount [some [1, 3], some [], none] : ℚ)),
               wrong := wrongCount [some [1, 3], some [], none] (i + 1) }) :=
  ⟨by decide, aggregator_rows_correct [some [1, 3], some [], none] 3 (by decide)⟩

/-- Claim C2: if every outcome is NotAttempted then every reported rate is 0.0
and the division guard's condition (a positive attempted count) is false,
so the division branch is unreachable. -/
theorem all_not_attempted_rates_zero (series : List (Option (List Nat))) (N : Nat)
    (h : ∀ v ∈ series, v = none) :
    (¬ 0 < series.countP (fun v => v.isSome)) ∧
    ∀ row ∈ compute_module_rates series N, row.rate = 0 := by
  have hcount : series.countP (fun v => v.isSome) = 0 := by
    rw [List.countP_eq_zero]
    intro v hv
    rw [h v hv]
    simp
  constructor
  · omega
  · intro row hrow
    simp only [compute_module_rates, List.mem_map, List.mem_range] at hrow
    obtain ⟨i, _, hrw⟩ := hrow
    rw [← hrw]
    simp [hcount]

/-- Witness for C2: the theorem instantiated at a series of two NotAttempted
outcomes with N = 2. -/
theorem all_not_attempted_rates_zero_witness :
    (∀ v ∈ ([none, none] : List (Option (List Nat))), v = none) ∧
    ((¬ 0 < ([none, none] : List (Option (List Nat))).countP (fun v => v.isSome)) ∧
    ∀ row ∈ compute_module_rates [none, none] 2, row.rate = 0) :=
  ⟨by decide, all_not_attempted_rates_zero [none, none] 2 (by decide)⟩

/-- Claim C3 is refuted by the source: the source normalises the full-width comma and the ASCII
semicolon to commas but not the full-width semicolon, so in the cell
"1，3；5" the full-width semicolon is not a separator: the token "3；5" is
dropped as non-numeric and the cell parses to AttemptedWrong({1}), not
AttemptedWrong({1,3,5}) as the spec (and the function's own docstring,
which promises full-width semicolon support) state. -/
theorem parse_fullwidth_semicolon_not_separator :
    robust_parse_wrong_list (some ['1', '，', '3', '；', '5']) = some [1] ∧
    robust_parse_wrong_list (some ['1', '，', '3', '；', '5']) ≠ some [1, 3, 5] := by
  decide

/-- The contribution of one comma-separated token: its parsed value when
its trimmed text is a non-negative integer literal, dropped otherwise. -/
def tokenValue (t : List Char) : Option Nat :=
  if pyIsDigit (pyStrip t) then some (pyInt (pyStrip t)) else none

theorem filterMap_if_eq_map_filter {α β : Type} (p : α → Bool) (f : α → β)
    (l : List α) :
    l.filterMap (fun a => if p a then some (f a) else none) =
      (l.filter p).map f := by
  induction l with
  | nil => rfl
  | cons a t ih =>
    by_cases h : p a <;> simp [List.filterMap_cons, List.filter_cons, h, ih]

/-- Claim C4: for every cell whose trimmed text is neither blank nor a
case-insensitive "X", the parser keeps exactly the comma-separated tokens
that are non-negative integer literals and drops every other token (its
result is total, so no error is raised); in particular "1,a,3" parses to
AttemptedWrong({1,3}). -/
theorem non_numeric_tokens_dropped (s : List Char)
    (h1 : pyStrip s ≠ []) (h2 : pyLower (pyStrip s) ≠ ['x']) :
    robust_parse_wrong_list (some s) =
      some ((pySplitComma (pyReplaceChar ';' ','
        (pyReplaceChar '，' ',' (pyStrip s)))).filterMap tokenValue) ∧
    robust_parse_wrong_list (some ['1', ',', 'a', ',', '3']) = some [1, 3] := by
  constructor
  · simp only [robust_parse_wrong_list, if_neg h1, if_neg h2, Option.some.injEq]
    have heq : tokenValue = fun t =>
        if pyIsDigit (pyStrip t) then some (pyInt (pyStrip t)) else none := rfl
    rw [heq, filterMap_if_eq_map_filter]
  · decide

/-- Witness for C4: the theorem instantiated at the cell "1,a,3". -/
theorem non_numeric_tokens_dropped_witness :
    (pyStrip ['1', ',', 'a', ',', '3'] ≠ [] ∧
     pyLower (pyStrip ['1', ',', 'a', ',', '3']) ≠ ['x']) ∧
    (robust_parse_wrong_list (some ['1', ',', 'a', ',', '3']) =
      some ((pySplitComma (pyReplaceChar ';' ','
        (pyReplaceChar '，' ',' (pyStrip ['1', ',', 'a', ',', '3'])))).filterMap tokenValue) ∧
    robust_parse_wrong_list (some ['1', ',', 'a', ',', '3']) = some [1, 3]) :=
  ⟨⟨by decide, by decide⟩,
    non_numeric_tokens_dropped ['1', ',', 'a', ',', '3'] (by decide) (by decide)⟩

/-- Claim C5: a null cell, and every cell whose text is blank after trimming
whitespace, parses to NotAttempted. -/
theorem blank_or_null_not_attempted :
    robust_parse_wrong_list none = none ∧
    ∀ s : List Char, pyStrip s = [] → robust_parse_wrong_list (some s) = none := by
  refine ⟨rfl, ?_⟩
  intro s hs
  simp [robust_parse_wrong_list, hs]

/-- Witness for C5: the blank-after-trimming case instantiated at a cell of two
spaces. -/
theorem blank_or_null_not_attempted_witness :
    pyStrip [' ', ' '] = [] ∧ robust_parse_wrong_list (some [' ', ' ']) = none :=
  ⟨by decide, blank_or_null_not_attempted.2 [' ', ' '] (by decide)⟩

/-- Claim C6: every cell whose text, after trimming whitespace, equals "X"
case-insensitively parses to AttemptedWrong(∅). -/
theorem x_parses_to_empty_wrong_set (s : List Char)
    (h : pyLower (pyStrip s) = ['x']) :
    robust_parse_wrong_list (some s) = some [] := by
  have hne : pyStrip s ≠ [] := by
    intro h0
    rw [h0] at h
    simp [pyLower] at h
  simp [robust_parse_wrong_list, hne, h]

/-- Witness for C6: the theorem instantiated at the cell " X ". -/
theorem x_parses_to_empty_wrong_set_witness :
    pyLower (pyStrip [' ', 'X', ' ']) = ['x'] ∧
    robust_parse_wrong_list (some [' ', 'X', ' ']) = some [] :=
  ⟨by decide, x_parses_to_empty_wrong_set [' ', 'X', ' '] (by decide)⟩

/-- Claim C7: for every input sequence and every N, the aggregator's output is
exactly N rows with question numbers 1..N in ascending order, and question
numbers outside 1..N in any student's wrong-set never produce a row and
never affect any row: removing every out-of-range number from every
wrong-set leaves the output unchanged. -/
theorem out_of_range_questions_excluded (series : List (Option (List Nat)))
    (N : Nat) :
    (compute_module_rates series N).length = N ∧
    (compute_module_rates series N).map StatRow.question =
      (List.range N).map (fun i => i + 1) ∧
    compute_module_rates
      (series.map (Option.map (fun l =>
        l.filter (fun q => decide (1 ≤ q) && decide (q ≤ N))))) N =
      compute_module_rates series N := by
  refine ⟨by simp [compute_module_rates], by simp [compute_module_rates], ?_⟩
  simp only [compute_module_rates]
  have hatt : (series.map (Option.map (fun l =>
      l.filter (fun q => decide (1 ≤ q) && decide (q ≤ N))))).countP
        (fun v => v.isSome) = series.countP (fun v => v.isSome) := by
    rw [List.countP_map]
    apply List.countP_congr
    intro v _
    cases v <;> simp
  rw [hatt]
  apply List.map_congr_left
  intro i hi
  rw [List.mem_range] at hi
  have hw : (series.map (Option.map (fun l =>
      l.filter (fun q => decide (1 ≤ q) && decide (q ≤ N))))).countP
        (fun v => match v with
          | some l => decide (i + 1 ∈ l)
          | none => false) =
      series.countP (fun v => match v with
        | some l => decide (i + 1 ∈ l)
        | none => false) := by
    rw [List.countP_map]
    apply List.countP_congr
    intro v _
    cases v with
    | none => simp
    | some l =>
      simp only [Function.comp_apply, Option.map_some', decide_eq_true_eq,
        List.mem_filter, Bool.and_eq_true]
      constructor
      · intro hmem
        exact hmem.1
      · intro hmem
        exact ⟨hmem, by omega, by omega⟩
  rw [hw]

/-- Claim C9: every output row's wrong count is at most the attempted count, and
every reported rate lies between 0 and 100 inclusive. -/
theorem rate_bounded (series : List (Option (List Nat))) (N : Nat) :
    ∀ row ∈ compute_module_rates series N,
      row.wrong ≤ attemptedCount series ∧ 0 ≤ row.rate ∧ row.rate ≤ 100 := by
  intro row hrow
  simp only [compute_module_rates, List.mem_map, List.mem_range] at hrow
  obtain ⟨i, hi, hrw⟩ := hrow
  rw [attemptedCount_eq_countP, ← hrw]
  have hwa : series.countP (fun v => match v with
      | some l => decide (i + 1 ∈ l)
      | none => false) ≤ series.countP (fun v => v.isSome) := by
    apply List.countP_mono_left
    intro v _
    cases v <;> simp
  refine ⟨hwa, ?_, ?_⟩ <;>
  · simp only
    rcases Nat.eq_zero_or_pos (series.countP (fun v => v.isSome)) with h0 | hpos
    · simp [h0]
    · rw [if_pos hpos]
      have ha : (0 : ℚ) < (series.countP (fun v => v.isSome) : ℚ) := by
        exact_mod_cast hpos
      first
      | exact pyRound1_nonneg (by positivity)
      | · apply pyRound1_le_100
          rw [div_mul_eq_mul_div, div_le_iff₀ ha]
          have : ((series.countP (fun v => match v with
              | some l => decide (i + 1 ∈ l)
              | none => false) : ℚ)) ≤
              (series.countP (fun v => v.isSome) : ℚ) := by
            exact_mod_cast hwa
          linarith

/-- Witness for C9: the theorem instantiated at the one-student series
[AttemptedWrong {1}] with N = 1, whose single row is (1, 100.0, 1). -/
theorem rate_bounded_witness :
    (({ question := 1, rate := 100, wrong := 1 } : StatRow) ∈
      compute_module_rates [some [1]] 1) ∧
    (({ question := 1, rate := 100, wrong := 1 } : StatRow).wrong ≤
      attemptedCount [some [1]] ∧
    0 ≤ ({ question := 1, rate := 100, wrong := 1 } : StatRow).rate ∧
    ({ question := 1, rate := 100, wrong := 1 } : StatRow).rate ≤ 100) :=
  ⟨by norm_num [compute_module_rates, pyRound1, roundHalfEven, List.range_succ],
   rate_bounded [some [1]] 1 { question := 1, rate := 100, wrong := 1 }
     (by norm_num [compute_module_rates, pyRound1, roundHalfEven, List.range_succ])⟩

/-- Claim C10: the parser returns the duplicated list for "1,1,3", and the
aggregator tests membership per student, so replacing any one student's
wrong-list by its deduplication never changes the output: duplicates
within one cell never inflate any count or rate. -/
theorem duplicates_count_once :
    robust_parse_wrong_list (some ['1', ',', '1', ',', '3']) = some [1, 1, 3] ∧
    ∀ (pre post : List (Option (List Nat))) (l : List Nat) (N : Nat),
      compute_module_rates (pre ++ some l :: post) N =
        compute_module_rates (pre ++ some l.dedup :: post) N := by
  refine ⟨by decide, ?_⟩
  intro pre post l N
  simp only [compute_module_rates]
  have hatt : (pre ++ some l :: post).countP (fun v => v.isSome) =
      (pre ++ some l.dedup :: post).countP (fun v => v.isSome) := by
    simp [List.countP_append, List.countP_cons]
  rw [hatt]
  apply List.map_congr_left
  intro i _
  have hw : (pre ++ some l :: post).countP (fun v => match v with
      | some m => decide (i + 1 ∈ m)
      | none => false) =
      (pre ++ some l.dedup :: post).countP (fun v => match v with
        | some m => decide (i + 1 ∈ m)
        | none => false) := by
    simp [List.countP_append, List.countP_cons, List.mem_dedup]
  rw [hw]

/-- Claim C8: if any required column (이름, Module1, Module2) is missing from the
uploaded table, the upload handler stops at the column check with an error
naming the missing columns (the message lists the whole required set, which
contains every missing column), and no report is produced. -/
theorem missing_columns_abort (t : InputTable) (m1N m2N : Nat)
    (h : ∃ c ∈ required_cols, c ∉ t.columns.map pyStrip) :
    (∃ named, process_upload t m1N m2N = .missingColumnsError named ∧
      ∀ c ∈ required_cols, c ∉ t.columns.map pyStrip → c ∈ named) ∧
    ∀ rows, process_upload t m1N m2N ≠ .report rows := by
  have hcond : ¬ (required_cols.all
      (fun c => (t.columns.map pyStrip).contains c) = true) := by
    rw [List.all_eq_true]
    push_neg
    obtain ⟨c, hc, hnot⟩ := h
    refine ⟨c, hc, ?_⟩
    simpa using hnot
  constructor
  · exact ⟨required_cols, by rw [process_upload, if_pos hcond],
      fun c hc _ => hc⟩
  · intro rows
    rw [process_upload, if_pos hcond]
    intro hcontra
    exact UploadOutcome.noConfusion hcontra

/-- Witness for C8: the theorem instantiated at a table whose only column is
이름 (Module1 and Module2 missing). -/
theorem missing_columns_abort_witness :
    (∃ c ∈ required_cols,
      c ∉ (InputTable.mk [['이', '름']] [] []).columns.map pyStrip) ∧
    ((∃ named, process_upload (InputTable.mk [['이', '름']] [] []) 22 22 =
        .missingColumnsError named ∧
      ∀ c ∈ required_cols,
        c ∉ (InputTable.mk [['이', '름']] [] []).columns.map pyStrip →
          c ∈ named) ∧
    ∀ rows, process_upload (InputTable.mk [['이', '름']] [] []) 22 22 ≠
      .report rows) :=
  ⟨by decide, missing_columns_abort (InputTable.mk [['이', '름']] [] []) 22 22
    (by decide)⟩

end SatStats
